import Mathlib

/-!
Shallow embedding of the style-painting core of the `delta` diff viewer
(`src/paint.rs`): the style-superimposition algebra, the line-number gutter
formatter, the line renderer and the paint-buffer orchestrator.
Rust strings are modelled as `List Char`; Rust panics as `Option.none`.
-/

/-- `syntect::highlighting::Color` (r, g, b, a as u8 values). -/
structure SyntectColor where
  r : Nat
  g : Nat
  b : Nat
  a : Nat
deriving DecidableEq

/-- `syntect::highlighting::Style`: foreground, background and a font-style
bit set (modelled as a `Nat`). Only equality and field access are used by
the code under study. -/
structure SyntectStyle where
  foreground : SyntectColor
  background : SyntectColor
  font_style : Nat
deriving DecidableEq

/-- `ansi_term::Colour`: the named palette colors, `Fixed(u8)` and `RGB`. -/
inductive Color where
  | black
  | red
  | green
  | yellow
  | blue
  | purple
  | cyan
  | white
  | fixed (n : Nat)
  | rgb (r g b : Nat)
deriving DecidableEq

/-- `ansi_term::Style`: optional foreground/background colors plus the
font-attribute booleans. -/
structure AnsiTermStyle where
  foreground : Option Color
  background : Option Color
  is_bold : Bool
  is_dimmed : Bool
  is_italic : Bool
  is_underline : Bool
  is_blink : Bool
  is_reverse : Bool
  is_hidden : Bool
  is_strikethrough : Bool
deriving DecidableEq

/-- Modelled from the spec: the decoration kind carried by a style
(`src/style.rs` is not part of the sources provided; the spec only says a
style carries "a decoration kind", so it is represented abstractly as a
tag). -/
inductive DecorationStyle where
  | noDecoration
  | decorated (kind : Nat)
deriving DecidableEq

/-- `crate::style::Style` as used by `paint.rs` (fields as exercised by the
code and its tests: an `ansi_term` style plus the flag set and decoration). -/
structure Style where
  ansi_term_style : AnsiTermStyle
  is_emph : Bool
  is_omitted : Bool
  is_raw : Bool
  is_syntax_highlighted : Bool
  decoration_style : DecorationStyle
deriving DecidableEq

/-- Modelled from the spec: `crate::bat::terminal::to_ansi_color` (not among
the provided sources) — "a pure function mapping a source-annotation color
into a terminal-renderable color under the active capability": true color
maps to an RGB terminal color, otherwise to a palette color. -/
def to_ansi_color (c : SyntectColor) (true_color : Bool) : Color :=
  if true_color then Color.rgb c.r c.g c.b else Color.fixed c.r

/-- Concatenation of the text components of a styled-span partition. -/
def concatText {T : Type} : List (T × List Char) → List Char
  | [] => []
  | (_, s) :: rest => s ++ concatText rest

/-- `explode` (`paint.rs` lines 369-380): flatten a styled-span partition
into a per-character sequence, each character tagged with its span's style. -/
def explode {T : Type} : List (T × List Char) → List (T × Char)
  | [] => []
  | (style, s) :: rest => s.map (fun c => (style, c)) ++ explode rest

/-- `superimpose` (`paint.rs` lines 382-396): pair the two styles at each
position, requiring the two characters at that position to be identical;
a mismatch is a panic, modelled as `none`. -/
def superimpose :
    List ((SyntectStyle × Char) × (Style × Char)) →
      Option (List ((SyntectStyle × Style) × Char))
  | [] => some []
  | ((syntax_style, c1), (style, c2)) :: rest =>
    if c1 ≠ c2 then none
    else
      match superimpose rest with
      | none => none
      | some l => some (((syntax_style, style), c1) :: l)

/-- The closure `make_superimposed_style` inside `coalesce`
(`paint.rs` lines 403-415), hoisted with its two captured parameters: when
the diff style asks for syntax highlighting and the syntax style is not the
null sentinel, replace the diff style's foreground with the translated
syntax foreground; otherwise keep the diff style unchanged. -/
def make_superimposed_style (true_color : Bool) (null_syntect_style : SyntectStyle)
    (p : SyntectStyle × Style) : Style :=
  let syntect_style := p.1
  let style := p.2
  if style.is_syntax_highlighted ∧ syntect_style ≠ null_syntect_style then
    { style with
      ansi_term_style :=
        { style.ansi_term_style with
          foreground := some (to_ansi_color syntect_style.foreground true_color) } }
  else style

/-- The accumulation loop of `coalesce` (`paint.rs` lines 416-439):
`cur_pair`/`cur_string` mirror `current_style_pair`/`current_string`; on a
style-pair change the current run is resolved and pushed; at the end one
trailing newline is removed from the final run's text if present. -/
def coalesceLoop (true_color : Bool) (null_syntect_style : SyntectStyle)
    (cur_pair : SyntectStyle × Style) (cur_string : List Char) :
    List ((SyntectStyle × Style) × Char) → List (Style × List Char)
  | [] =>
    let final :=
      if cur_string.getLast? = some '\n' then cur_string.dropLast else cur_string
    [(make_superimposed_style true_color null_syntect_style cur_pair, final)]
  | (pair, c) :: rest =>
    if pair ≠ cur_pair then
      (make_superimposed_style true_color null_syntect_style cur_pair, cur_string) ::
        coalesceLoop true_color null_syntect_style pair [c] rest
    else
      coalesceLoop true_color null_syntect_style cur_pair (cur_string ++ [c]) rest

/-- `coalesce` (`paint.rs` lines 398-441): merge consecutive positions whose
`(syntax_style, diff_style)` pairs coincide into runs, resolving each run's
final style once. -/
def coalesce (style_sections : List ((SyntectStyle × Style) × Char))
    (true_color : Bool) (null_syntect_style : SyntectStyle) :
    List (Style × List Char) :=
  match style_sections with
  | [] => []
  | (pair, c) :: rest => coalesceLoop true_color null_syntect_style pair [c] rest

/-- `superimpose_style_sections` (`paint.rs` lines 351-367): explode both
partitions, zip them position-wise (Rust `zip` truncates at the shorter
sequence), superimpose (panic on character mismatch) and coalesce. -/
def superimpose_style_sections (sections_1 : List (SyntectStyle × List Char))
    (sections_2 : List (Style × List Char)) (true_color : Bool)
    (null_syntect_style : SyntectStyle) : Option (List (Style × List Char)) :=
  match superimpose ((explode sections_1).zip (explode sections_2)) with
  | none => none
  | some l => some (coalesce l true_color null_syntect_style)

/-- One trailing newline removed if present: the spec's "input line text
with at most one trailing terminator removed". -/
def stripTrailingNewline (t : List Char) : List Char :=
  if t.getLast? = some '\n' then t.dropLast else t

/-- `ANSI_CSI_ERASE_IN_LINE` (`paint.rs` line 16): `"\x1b[K"`. -/
def ANSI_CSI_ERASE_IN_LINE : List Char := ['\x1b', '[', 'K']

/-- `ANSI_SGR_RESET` (`paint.rs` line 17): `"\x1b[0m"`. -/
def ANSI_SGR_RESET : List Char := ['\x1b', '[', '0', 'm']

/-- `str::to_lowercase`, modelled character-wise with ASCII lowering (the
characters the painting code compares — ESC, brackets, digits, `K`, `m` —
are all ASCII). -/
def strToLowercase (s : List Char) : List Char := s.map Char.toLower

/-- The fixed-width background-fill step of `Painter::paint_lines`
(`paint.rs` lines 224-234): if the composed line ends (case-insensitively)
with an SGR reset, truncate that reset; then append the clear-to-end-of-line
sequence and an SGR reset. -/
def backgroundFillStep (line : List Char) : List Char :=
  let truncated :=
    if (strToLowercase ANSI_SGR_RESET).isSuffixOf (strToLowercase line) then
      line.take (line.length - ANSI_SGR_RESET.length)
    else line
  truncated ++ ANSI_CSI_ERASE_IN_LINE ++ ANSI_SGR_RESET

/-- `format_line_number` (`paint.rs` lines 570-575): `format!("{:^4}", x)`
centers the decimal rendering in a minimum field width of 4 (Rust gives the
extra padding character to the right); `None` becomes four blanks. -/
def natToDigits (n : Nat) : List Char := Nat.toDigits 10 n

/-- `format_line_number`, continued: the formatting function itself. -/
def format_line_number (line_number : Option Nat) : List Char :=
  match line_number with
  | some x =>
    let digits := natToDigits x
    if 4 ≤ digits.length then digits
    else
      let pad := 4 - digits.length
      List.replicate (pad / 2) ' ' ++ digits ++ List.replicate (pad - pad / 2) ' '
  | none => [' ', ' ', ' ', ' ']

/-- The capture of `LINE_NUMBER_REGEXP` (`paint.rs` lines 565-568),
`(?P<before>.*)(?P<ln>%ln)(?P<after>.*)`, on a template without line
terminators: the greedy `before` group swallows everything up to the LAST
occurrence of `%ln`; no occurrence means no match (`captures` returns
`None`, so the `unwrap` in the caller panics). -/
def splitAtLastLn : List Char → Option (List Char × List Char)
  | [] => none
  | c :: rest =>
    match splitAtLastLn rest with
    | some (b, a) => some (c :: b, a)
    | none =>
      if c = '%' ∧ rest.take 2 = ['l', 'n'] then some ([], rest.drop 2)
      else none

/-- Number of occurrences of the `%ln` placeholder in a template. -/
def countLn : List Char → Nat
  | [] => 0
  | c :: rest =>
    (if c = '%' ∧ rest.take 2 = ['l', 'n'] then 1 else 0) + countLn rest

/-- `get_line_number_components` (`paint.rs` lines 577-590): split the
template at the placeholder and put the formatted number in the middle; the
`unwrap` on a template without a placeholder panics (modelled as `none`). -/
def get_line_number_components (number : Option Nat) (number_format : List Char) :
    Option (List Char × List Char × List Char) :=
  match splitAtLastLn number_format with
  | none => none
  | some (before, after) => some (before, format_line_number number, after)

/-- `has_line_numbers` (`paint.rs` lines 592-601). -/
def has_line_numbers (line_numbers : Option Nat × Option Nat) : Bool :=
  match line_numbers.1 with
  | some _ => true
  | none =>
    match line_numbers.2 with
    | some _ => true
    | none => false

/-- `style_sections_contain_more_than_one_style` (`paint.rs` lines 332-343):
true when there is more than one section and some section's style differs
from the first section's style. -/
def style_sections_contain_more_than_one_style
    (sections : List (Style × List Char)) : Bool :=
  match sections with
  | s0 :: s1 :: rest => (s0 :: s1 :: rest).any (fun s => s.1 ≠ s0.1)
  | _ => false

/-- `crate::delta::State`, restricted to the hunk states consumed by
`paint.rs` (the defining module is not among the provided sources; these
constructors are the ones `paint.rs` matches on). -/
inductive State where
  | HunkMinus
  | HunkZero
  | HunkPlus
  | HunkHeader
deriving DecidableEq

/-- The resolved configuration fields of `config::Config` that `paint.rs`
reads (`theme` is reduced to its only observable use here, `is_none`). -/
structure Config where
  theme : Option Unit
  show_line_numbers : Bool
  number_minus_format : List Char
  number_plus_format : List Char
  number_minus_format_style : Style
  number_minus_style : Style
  number_plus_format_style : Style
  number_plus_style : Style
  true_color : Bool
  null_syntect_style : SyntectStyle
  background_color_extends_to_terminal_width : Bool
  minus_line_marker : List Char
  plus_line_marker : List Char
  minus_style : Style
  minus_emph_style : Style
  minus_non_emph_style : Style
  zero_style : Style
  plus_style : Style
  plus_emph_style : Style
  plus_non_emph_style : Style

/-- `Painter::should_compute_syntax_highlighting` (`paint.rs` lines
249-269) on the hunk states. -/
def should_compute_syntax_highlighting (state : State) (config : Config) : Bool :=
  if config.theme.isNone then false
  else
    match state with
    | State.HunkMinus =>
      config.minus_style.is_syntax_highlighted ||
        config.minus_emph_style.is_syntax_highlighted
    | State.HunkZero => config.zero_style.is_syntax_highlighted
    | State.HunkPlus =>
      config.plus_style.is_syntax_highlighted ||
        config.plus_emph_style.is_syntax_highlighted
    | State.HunkHeader => true

/-- `Painter::get_syntax_style_sections_for_lines` (`paint.rs` lines
271-287). The external highlighter (`syntect`'s stateful `HighlightLines`)
is abstracted as a per-line function parameter. -/
def get_syntax_style_sections_for_lines
    (highlight : List Char → List (SyntectStyle × List Char))
    (lines : List (List Char)) (state : State) (config : Config) :
    List (List (SyntectStyle × List Char)) :=
  let fake := ¬ should_compute_syntax_highlighting state config
  lines.map (fun line =>
    if fake then [(config.null_syntect_style, line)] else highlight line)

/-- `Painter::set_non_emph_styles` (`paint.rs` lines 314-327): in every line
whose sections carry more than one distinct style, rewrite each
non-emph-flagged section to the non-emph style. -/
def set_non_emph_styles (style_sections : List (List (Style × List Char)))
    (non_emph_style : Style) : List (List (Style × List Char)) :=
  style_sections.map (fun line_sections =>
    if style_sections_contain_more_than_one_style line_sections then
      line_sections.map (fun sec =>
        if ¬ sec.1.is_emph then (non_emph_style, sec.2) else sec)
    else line_sections)

/-- `Painter::get_diff_style_sections` (`paint.rs` lines 290-312). The
external edit-inference collaborator `edits::infer_edits` (its module is not
among the provided sources) is abstracted as a function parameter receiving
the two line buffers and the four diff styles; the two numeric thresholds it
also receives are folded into the parameter. -/
def get_diff_style_sections
    (infer_edits : List (List Char) → List (List Char) → Style → Style → Style →
      Style → List (List (Style × List Char)) × List (List (Style × List Char)))
    (minus_lines plus_lines : List (List Char)) (config : Config) :
    List (List (Style × List Char)) × List (List (Style × List Char)) :=
  let diff_sections :=
    infer_edits minus_lines plus_lines config.minus_style config.minus_emph_style
      config.plus_style config.plus_emph_style
  let ds0 :=
    if config.minus_non_emph_style ≠ config.minus_emph_style then
      set_non_emph_styles diff_sections.1 config.minus_non_emph_style
    else diff_sections.1
  let ds1 :=
    if config.plus_non_emph_style ≠ config.plus_emph_style then
      set_non_emph_styles diff_sections.2 config.plus_non_emph_style
    else diff_sections.2
  (ds0, ds1)

/-- The gutter portion of `Painter::paint_lines` (`paint.rs` lines 156-194):
when line numbers are shown and this line has one, the six styled pieces
(minus before/number/after, plus before/number/after); the `unwrap` inside
`get_line_number_components` panics on a bad template (modelled as `none`). -/
def gutterAnsiStrings (config : Config) (line_numbers : Option Nat × Option Nat) :
    Option (List (Style × List Char)) :=
  if config.show_line_numbers ∧ has_line_numbers line_numbers then
    match get_line_number_components line_numbers.1 config.number_minus_format,
        get_line_number_components line_numbers.2 config.number_plus_format with
    | some (minus_before, minus_number, minus_after),
      some (plus_before, plus_number, plus_after) =>
      some [(config.number_minus_format_style, minus_before),
        (config.number_minus_style, minus_number),
        (config.number_minus_format_style, minus_after),
        (config.number_plus_format_style, plus_before),
        (config.number_plus_style, plus_number),
        (config.number_plus_format_style, plus_after)]
    | _, _ => none
  else some []

/-- The prefix-handling loop of `Painter::paint_lines` (`paint.rs` lines
195-211): on the first superimposed section, if the configured prefix is
non-empty, emit the prefix painted in that section's style and remove the
first character of the section's text when the text is non-empty; all
later sections pass through unchanged. -/
def contentAnsiStrings (pfx : List Char) :
    List (Style × List Char) → List (Style × List Char)
  | [] => []
  | (section_style, text) :: rest =>
    if pfx ≠ [] then
      (section_style, pfx) ::
        (section_style, if 0 < text.length then text.drop 1 else text) :: rest
    else (section_style, text) :: rest

/-- The per-line body of `Painter::paint_lines` (`paint.rs` lines 144-239):
select the right-fill style, build gutter + content + zero-length fill
span, render through `ansi_term::ANSIStrings` (abstracted as the
`render_ansi` parameter), apply the background-fill step when required, and
terminate with exactly one newline. Returns the text appended to the output
buffer, or `none` on a panic. -/
def paint_line (render_ansi : List (Style × List Char) → List Char)
    (config : Config) (pfx : List Char) (style non_emph_style : Style)
    (background_color_extends_to_terminal_width : Option Bool)
    (syntax_sections : List (SyntectStyle × List Char))
    (diff_sections : List (Style × List Char))
    (line_numbers : Option Nat × Option Nat) : Option (List Char) :=
  let non_emph_style :=
    if style_sections_contain_more_than_one_style diff_sections then
      non_emph_style
    else style
  match gutterAnsiStrings config line_numbers with
  | none => none
  | some gutter =>
    match superimpose_style_sections syntax_sections diff_sections
        config.true_color config.null_syntect_style with
    | none => none
    | some superimposed =>
      let content := contentAnsiStrings pfx superimposed
      let have_background_for_right_fill :=
        non_emph_style.ansi_term_style.background.isSome
      let fill_strings :=
        if have_background_for_right_fill then
          [(non_emph_style, ([] : List Char))]
        else []
      let line := render_ansi (gutter ++ content ++ fill_strings)
      let bcettw :=
        background_color_extends_to_terminal_width.getD
          config.background_color_extends_to_terminal_width
      let final :=
        if bcettw ∧ have_background_for_right_fill then backgroundFillStep line
        else line
      some (final ++ ['\n'])

/-- `Painter::paint_lines` (`paint.rs` lines 124-240): iterate the zip of
the three per-line section lists (Rust `zip` truncates at the shortest),
appending each rendered line to the output buffer. -/
def paint_lines (render_ansi : List (Style × List Char) → List Char)
    (config : Config) (pfx : List Char) (style non_emph_style : Style)
    (background_color_extends_to_terminal_width : Option Bool)
    (syntax_style_sections : List (List (SyntectStyle × List Char)))
    (diff_style_sections : List (List (Style × List Char)))
    (line_number_sections : List (Option Nat × Option Nat))
    (output_buffer : List Char) : Option (List Char) :=
  ((syntax_style_sections.zip diff_style_sections).zip line_number_sections).foldlM
    (fun buf sections =>
      (paint_line render_ansi config pfx style non_emph_style
          background_color_extends_to_terminal_width sections.1.1 sections.1.2
          sections.2).map
        (fun line => buf ++ line))
    output_buffer

/-- The mutable state of `Painter` (`paint.rs` lines 19-29) that the core
operates on: the two per-side line buffers, the output buffer and the two
per-side line-number counters (the writer, syntax reference and stateful
highlighter are external collaborators). -/
structure Painter where
  minus_lines : List (List Char)
  plus_lines : List (List Char)
  output_buffer : List Char
  minus_line_number : Nat
  plus_line_number : Nat
deriving DecidableEq

/-- The line-number loops of `Painter::paint_buffered_lines` (`paint.rs`
lines 81-90): for each buffered line push `(Some counter, None)` (minus
side) or `(None, Some counter)` (plus side) and increment the counter;
returns the pushed list and the final counter. -/
def pushLineNumbers (minus_side : Bool) :
    List (List Char) → Nat → List (Option Nat × Option Nat) × Nat
  | [], n => ([], n)
  | _ :: rest, n =>
    let tail := pushLineNumbers minus_side rest (n + 1)
    ((if minus_side then (some n, none) else (none, some n)) :: tail.1, tail.2)

/-- `Painter::paint_buffered_lines` (`paint.rs` lines 65-120): compute
syntax sections for both sides, diff sections via the edit-inference
collaborator, assign line numbers, paint the minus side (if non-empty) then
the plus side (if non-empty) into the output buffer, and clear both line
buffers. A panic anywhere is `none`. -/
def paint_buffered_lines (render_ansi : List (Style × List Char) → List Char)
    (highlight : List Char → List (SyntectStyle × List Char))
    (infer_edits : List (List Char) → List (List Char) → Style → Style → Style →
      Style → List (List (Style × List Char)) × List (List (Style × List Char)))
    (config : Config) (p : Painter) : Option Painter :=
  let minus_line_syntax_style_sections :=
    get_syntax_style_sections_for_lines highlight p.minus_lines State.HunkMinus config
  let plus_line_syntax_style_sections :=
    get_syntax_style_sections_for_lines highlight p.plus_lines State.HunkPlus config
  let diff_style_sections :=
    get_diff_style_sections infer_edits p.minus_lines p.plus_lines config
  let minus_numbers := pushLineNumbers true p.minus_lines p.minus_line_number
  let plus_numbers := pushLineNumbers false p.plus_lines p.plus_line_number
  match (if p.minus_lines.isEmpty then some p.output_buffer
      else
        paint_lines render_ansi config config.minus_line_marker config.minus_style
          config.minus_non_emph_style none minus_line_syntax_style_sections
          diff_style_sections.1 minus_numbers.1 p.output_buffer) with
  | none => none
  | some buf1 =>
    match (if p.plus_lines.isEmpty then some buf1
        else
          paint_lines render_ansi config config.plus_line_marker config.plus_style
            config.plus_non_emph_style none plus_line_syntax_style_sections
            diff_style_sections.2 plus_numbers.1 buf1) with
    | none => none
    | some buf2 =>
      some { minus_lines := [], plus_lines := [], output_buffer := buf2
             minus_line_number := minus_numbers.2
             plus_line_number := plus_numbers.2 }

/-- `Painter::emit` (`paint.rs` lines 242-247): `write!` the whole output
buffer to the sink, then clear the buffer; the `?` propagates a write error
before the clear, leaving the painter untouched. The sink is modelled as
the list of characters it has received, and write failure as the
`write_succeeds` flag (a failed write is modelled as writing nothing). -/
def emit (write_succeeds : Bool) (sink : List Char) (p : Painter) :
    Except Unit Unit × List Char × Painter :=
  if write_succeeds then
    (Except.ok (), sink ++ p.output_buffer, { p with output_buffer := [] })
  else (Except.error (), sink, p)

/-- Sample syntect style (the all-zero style, also usable as a null
sentinel) for concrete witnesses. -/
def sampleSyntectStyle : SyntectStyle := ⟨⟨0, 0, 0, 0⟩, ⟨0, 0, 0, 0⟩, 0⟩

/-- A second, distinct sample syntect style. -/
def sampleSyntectStyle2 : SyntectStyle := ⟨⟨7, 7, 7, 0⟩, ⟨0, 0, 0, 0⟩, 0⟩

/-- Sample `ansi_term` style with no colors and no attributes. -/
def sampleAnsiTermStyle : AnsiTermStyle :=
  ⟨none, none, false, false, false, false, false, false, false, false⟩

/-- Sample diff style: plain, not emphasized, not syntax-highlighted. -/
def sampleStyle : Style :=
  ⟨sampleAnsiTermStyle, false, false, false, false, DecorationStyle.noDecoration⟩

/-- Sample emphasized diff style. -/
def sampleEmphStyle : Style :=
  ⟨sampleAnsiTermStyle, true, false, false, false, DecorationStyle.noDecoration⟩

/-- Sample syntax-highlighted diff style. -/
def sampleHighlightedStyle : Style :=
  ⟨sampleAnsiTermStyle, false, false, false, true, DecorationStyle.noDecoration⟩

theorem map_snd_explode {T : Type} (s : List (T × List Char)) :
    (explode s).map Prod.snd = concatText s := by
  induction s with
  | nil => rfl
  | cons hd tl ih =>
    obtain ⟨style, t⟩ := hd
    simp [explode, concatText, ih, List.map_map, Function.comp]

theorem superimpose_cons (sa : SyntectStyle) (ca : Char) (sb : Style) (cb : Char)
    (rest : List ((SyntectStyle × Char) × (Style × Char))) :
    superimpose (((sa, ca), (sb, cb)) :: rest) =
      if ca = cb then (superimpose rest).map (fun l => ((sa, sb), ca) :: l)
      else none := by
  by_cases hc : ca = cb
  · rw [if_pos hc]
    show (if ca ≠ cb then none else _) = _
    rw [if_neg (by simpa using hc)]
    cases hr : superimpose rest <;> simp [hr]
  · rw [if_neg hc]
    show (if ca ≠ cb then none else _) = _
    rw [if_pos hc]

theorem superimpose_eq_none_iff :
    ∀ (l1 : List (SyntectStyle × Char)) (l2 : List (Style × Char)),
      superimpose (l1.zip l2) = none ↔
        ∃ i a b, l1.get? i = some a ∧ l2.get? i = some b ∧ a.2 ≠ b.2 := by
  intro l1
  induction l1 with
  | nil => intro l2; simp [superimpose]
  | cons a l1 ih =>
    intro l2
    cases l2 with
    | nil => simp [superimpose]
    | cons b l2 =>
      obtain ⟨sa, ca⟩ := a
      obtain ⟨sb, cb⟩ := b
      rw [List.zip_cons_cons, superimpose_cons]
      by_cases hc : ca = cb
      · rw [if_pos hc]
        constructor
        · intro h
          have hrest : superimpose (l1.zip l2) = none := by
            cases hr : superimpose (l1.zip l2) with
            | none => rfl
            | some z => rw [hr] at h; simp at h
          obtain ⟨i, a', b', h1, h2, h3⟩ := (ih l2).mp hrest
          exact ⟨i + 1, a', b', h1, h2, h3⟩
        · rintro ⟨i, a', b', h1, h2, h3⟩
          cases i with
          | zero =>
            simp only [List.get?] at h1 h2
            obtain rfl := (Option.some.inj h1).symm
            obtain rfl := (Option.some.inj h2).symm
            exact absurd hc (by simpa using h3)
          | succ i =>
            simp only [List.get?] at h1 h2
            have hrest := (ih l2).mpr ⟨i, a', b', h1, h2, h3⟩
            rw [hrest]
            rfl
      · rw [if_neg hc]
        constructor
        · intro _
          exact ⟨0, (sa, ca), (sb, cb), rfl, rfl, by simpa using hc⟩
        · intro _
          rfl

theorem superimpose_total :
    ∀ (l1 : List (SyntectStyle × Char)) (l2 : List (Style × Char)),
      l1.map Prod.snd = l2.map Prod.snd →
        ∃ z, superimpose (l1.zip l2) = some z ∧
          z.map Prod.snd = l1.map Prod.snd ∧ z.length = l1.length := by
  intro l1
  induction l1 with
  | nil => intro l2 _; exact ⟨[], rfl, rfl, rfl⟩
  | cons a l1 ih =>
    intro l2 h
    cases l2 with
    | nil => simp at h
    | cons b l2 =>
      obtain ⟨sa, ca⟩ := a
      obtain ⟨sb, cb⟩ := b
      simp only [List.map_cons, List.cons.injEq] at h
      obtain ⟨h1, h2⟩ := h
      obtain ⟨z, hz, hsnd, hlen⟩ := ih l2 h2
      refine ⟨((sa, sb), ca) :: z, ?_, ?_, ?_⟩
      · rw [List.zip_cons_cons, superimpose_cons, if_pos h1, hz]
        rfl
      · simp [hsnd]
      · simp [hlen]

theorem stripTrailingNewline_append (a x : List Char) (hx : x ≠ []) :
    a ++ stripTrailingNewline x = stripTrailingNewline (a ++ x) := by
  unfold stripTrailingNewline
  rw [List.getLast?_append_of_ne_nil a hx]
  by_cases hl : x.getLast? = some '\n'
  · simp [hl, List.dropLast_append_of_ne_nil a hx]
  · simp [hl]

theorem concatText_coalesceLoop (tc : Bool) (nss : SyntectStyle) :
    ∀ (rest : List ((SyntectStyle × Style) × Char)) (pair : SyntectStyle × Style)
      (cur : List Char),
      concatText (coalesceLoop tc nss pair cur rest) =
        stripTrailingNewline (cur ++ rest.map Prod.snd) := by
  intro rest
  induction rest with
  | nil =>
    intro pair cur
    simp [coalesceLoop, concatText, stripTrailingNewline]
  | cons pc rest ih =>
    intro pair cur
    obtain ⟨p, c⟩ := pc
    by_cases hp : p = pair
    · subst hp
      rw [show coalesceLoop tc nss p cur ((p, c) :: rest) =
          coalesceLoop tc nss p (cur ++ [c]) rest from by simp [coalesceLoop]]
      rw [ih p (cur ++ [c])]
      simp only [List.map_cons, List.append_assoc, List.singleton_append]
    · rw [show coalesceLoop tc nss pair cur ((p, c) :: rest) =
          (make_superimposed_style tc nss pair, cur) ::
            coalesceLoop tc nss p [c] rest from by simp [coalesceLoop, hp]]
      rw [concatText, ih p [c]]
      simp only [List.singleton_append, List.map_cons]
      exact stripTrailingNewline_append cur (c :: rest.map Prod.snd) (by simp)

theorem coalesceLoop_ne_nil (tc : Bool) (nss : SyntectStyle) :
    ∀ (rest : List ((SyntectStyle × Style) × Char)) (pair : SyntectStyle × Style)
      (cur : List Char), coalesceLoop tc nss pair cur rest ≠ [] := by
  intro rest
  induction rest with
  | nil => intro pair cur; simp [coalesceLoop]
  | cons pc rest ih =>
    intro pair cur
    obtain ⟨p, c⟩ := pc
    by_cases hp : p = pair
    · subst hp
      rw [show coalesceLoop tc nss p cur ((p, c) :: rest) =
          coalesceLoop tc nss p (cur ++ [c]) rest from by simp [coalesceLoop]]
      exact ih p (cur ++ [c])
    · rw [show coalesceLoop tc nss pair cur ((p, c) :: rest) =
          (make_superimposed_style tc nss pair, cur) ::
            coalesceLoop tc nss p [c] rest from by simp [coalesceLoop, hp]]
      simp

theorem concatText_coalesce (l : List ((SyntectStyle × Style) × Char))
    (tc : Bool) (nss : SyntectStyle) :
    concatText (coalesce l tc nss) = stripTrailingNewline (l.map Prod.snd) := by
  cases l with
  | nil => simp [coalesce, concatText, stripTrailingNewline]
  | cons pc rest =>
    obtain ⟨pair, c⟩ := pc
    show concatText (coalesceLoop tc nss pair [c] rest) = _
    rw [concatText_coalesceLoop]
    simp

theorem coalesceLoop_styles (tc : Bool) (nss : SyntectStyle) :
    ∀ (rest : List ((SyntectStyle × Style) × Char)) (pair : SyntectStyle × Style)
      (cur : List Char) (st : Style) (txt : List Char),
      (st, txt) ∈ coalesceLoop tc nss pair cur rest →
        st = make_superimposed_style tc nss pair ∨
          ∃ q c, (q, c) ∈ rest ∧ st = make_superimposed_style tc nss q := by
  intro rest
  induction rest with
  | nil =>
    intro pair cur st txt h
    simp [coalesceLoop] at h
    exact Or.inl h.1
  | cons pc rest ih =>
    intro pair cur st txt h
    obtain ⟨p, c⟩ := pc
    by_cases hp : p = pair
    · subst hp
      rw [show coalesceLoop tc nss p cur ((p, c) :: rest) =
          coalesceLoop tc nss p (cur ++ [c]) rest from by simp [coalesceLoop]] at h
      rcases ih p (cur ++ [c]) st txt h with h1 | ⟨q, c', hq, he⟩
      · exact Or.inl h1
      · exact Or.inr ⟨q, c', List.mem_cons_of_mem _ hq, he⟩
    · rw [show coalesceLoop tc nss pair cur ((p, c) :: rest) =
          (make_superimposed_style tc nss pair, cur) ::
            coalesceLoop tc nss p [c] rest from by simp [coalesceLoop, hp]] at h
      rcases List.mem_cons.mp h with h | h
      · exact Or.inl (by injection h)
      · rcases ih p [c] st txt h with h1 | ⟨q, c', hq, he⟩
        · exact Or.inr ⟨p, c, List.mem_cons_self _ _, h1⟩
        · exact Or.inr ⟨q, c', List.mem_cons_of_mem _ hq, he⟩

/-- C1 (amended): `superimpose_style_sections` aborts (panics) exactly when
the two text concatenations differ at some position at which BOTH are
defined; when the concatenations are equal it never aborts. A difference
only in length (one concatenation a strict prefix of the other) is silently
truncated by the position-wise zip and does not abort. -/
theorem c1_mismatch_abort_characterization
    (sections_1 : List (SyntectStyle × List Char))
    (sections_2 : List (Style × List Char)) (true_color : Bool)
    (null_syntect_style : SyntectStyle) :
    (superimpose_style_sections sections_1 sections_2 true_color
        null_syntect_style = none ↔
      ∃ i c1 c2, (concatText sections_1).get? i = some c1 ∧
        (concatText sections_2).get? i = some c2 ∧ c1 ≠ c2) ∧
    (concatText sections_1 = concatText sections_2 →
      superimpose_style_sections sections_1 sections_2 true_color
        null_syntect_style ≠ none) := by
  have hmain :
      superimpose_style_sections sections_1 sections_2 true_color
          null_syntect_style = none ↔
        ∃ i c1 c2, (concatText sections_1).get? i = some c1 ∧
          (concatText sections_2).get? i = some c2 ∧ c1 ≠ c2 := by
    have hssn : superimpose_style_sections sections_1 sections_2 true_color
        null_syntect_style = none ↔
        superimpose ((explode sections_1).zip (explode sections_2)) = none := by
      unfold superimpose_style_sections
      cases h : superimpose ((explode sections_1).zip (explode sections_2)) <;>
        simp [h]
    rw [hssn, superimpose_eq_none_iff]
    constructor
    · rintro ⟨i, a, b, h1, h2, h3⟩
      refine ⟨i, a.2, b.2, ?_, ?_, h3⟩
      · rw [← map_snd_explode, List.get?_map, h1]; rfl
      · rw [← map_snd_explode, List.get?_map, h2]; rfl
    · rintro ⟨i, c1, c2, h1, h2, h3⟩
      rw [← map_snd_explode, List.get?_map] at h1 h2
      rcases ha : (explode sections_1).get? i with _ | a
      · rw [ha] at h1; simp at h1
      rcases hb : (explode sections_2).get? i with _ | b
      · rw [hb] at h2; simp at h2
      rw [ha] at h1
      rw [hb] at h2
      refine ⟨i, a, b, ha, hb, ?_⟩
      have e1 : a.2 = c1 := by simpa using h1
      have e2 : b.2 = c2 := by simpa using h2
      rw [e1, e2]
      exact h3
  refine ⟨hmain, ?_⟩
  intro heq hnone
  obtain ⟨i, c1, c2, h1, h2, h3⟩ := hmain.mp hnone
  rw [heq] at h1
  rw [h1] at h2
  exact h3 (Option.some.inj h2)

/-- C1 counterexample: a syntax partition with text `"ab"` and a diff
partition with text `"a"` — the concatenations differ (one is a strict
prefix of the other), yet the superimposition does NOT abort: the zip
silently truncates to the shorter sequence, contradicting the claim that
any difference between the concatenations must abort. -/
theorem c1_counterexample :
    concatText [(sampleSyntectStyle, ['a', 'b'])] ≠
        concatText [(sampleStyle, ['a'])] ∧
      superimpose_style_sections [(sampleSyntectStyle, ['a', 'b'])]
        [(sampleStyle, ['a'])] true sampleSyntectStyle ≠ none := by
  decide

/-- C1 witness: at a concrete pair of partitions with equal concatenations
the superimposition does not abort. -/
theorem c1_witness :
    superimpose_style_sections [(sampleSyntectStyle, ['a', 'b'])]
      [(sampleStyle, ['a']), (sampleEmphStyle, ['b'])] true
      sampleSyntectStyle ≠ none :=
  (c1_mismatch_abort_characterization [(sampleSyntectStyle, ['a', 'b'])]
      [(sampleStyle, ['a']), (sampleEmphStyle, ['b'])] true
      sampleSyntectStyle).2 (by decide)

/-- C2: when the two partitions carry the same text, the superimposition
succeeds and the concatenation of the output run texts equals the input
text with one trailing newline removed when present (and nothing removed
otherwise); no character is duplicated or dropped, and the output run list
is non-empty whenever the input line is non-empty. -/
theorem c2_text_preservation (sections_1 : List (SyntectStyle × List Char))
    (sections_2 : List (Style × List Char)) (true_color : Bool)
    (null_syntect_style : SyntectStyle)
    (h : concatText sections_1 = concatText sections_2) :
    ∃ out, superimpose_style_sections sections_1 sections_2 true_color
        null_syntect_style = some out ∧
      concatText out = stripTrailingNewline (concatText sections_1) ∧
      (concatText sections_1 ≠ [] → out ≠ []) := by
  have hsnd : (explode sections_1).map Prod.snd =
      (explode sections_2).map Prod.snd := by
    rw [map_snd_explode, map_snd_explode]
    exact h
  obtain ⟨z, hz, hzsnd, hzlen⟩ := superimpose_total _ _ hsnd
  have hss : superimpose_style_sections sections_1 sections_2 true_color
      null_syntect_style = some (coalesce z true_color null_syntect_style) := by
    unfold superimpose_style_sections
    rw [hz]
  refine ⟨coalesce z true_color null_syntect_style, hss, ?_, ?_⟩
  · rw [concatText_coalesce, hzsnd, map_snd_explode]
  · intro hne
    have hz_ne : z ≠ [] := by
      intro hz0
      rw [hz0] at hzsnd
      rw [map_snd_explode] at hzsnd
      exact hne hzsnd.symm
    cases z with
    | nil => exact absurd rfl hz_ne
    | cons pc rest =>
      obtain ⟨pair, c⟩ := pc
      show coalesceLoop true_color null_syntect_style pair [c] rest ≠ []
      exact coalesceLoop_ne_nil _ _ _ _ _

/-- C2 witness: a concrete line `"ab\n"` split differently by the two
partitions yields a successful superimposition whose output text is `"ab"`. -/
theorem c2_witness :
    concatText [(sampleSyntectStyle, ['a', 'b', '\n'])] =
        concatText [(sampleStyle, ['a']), (sampleEmphStyle, ['b', '\n'])] ∧
      ∃ out, superimpose_style_sections [(sampleSyntectStyle, ['a', 'b', '\n'])]
          [(sampleStyle, ['a']), (sampleEmphStyle, ['b', '\n'])] true
          sampleSyntectStyle = some out ∧
        concatText out =
          stripTrailingNewline (concatText [(sampleSyntectStyle, ['a', 'b', '\n'])]) ∧
        (concatText [(sampleSyntectStyle, ['a', 'b', '\n'])] ≠ [] → out ≠ []) :=
  ⟨by decide,
    c2_text_preservation [(sampleSyntectStyle, ['a', 'b', '\n'])]
      [(sampleStyle, ['a']), (sampleEmphStyle, ['b', '\n'])] true
      sampleSyntectStyle (by decide)⟩

/-- C3: style resolution during coalescing. When the diff style requests
syntax highlighting and the syntax style is not the null sentinel, the
resolved style is the diff style with only its foreground replaced by the
terminal-color translation of the syntax style's foreground; every other
field (background, all font attributes, flags, decoration) is preserved.
Otherwise the resolved style is exactly the diff style. Moreover each style
in the coalesced output is `make_superimposed_style` of a style pair
occurring in the input — i.e. resolution depends only on the
`(syntax_style, diff_style)` pair, never on the position in the line. -/
theorem c3_style_resolution (true_color : Bool)
    (null_syntect_style syntax_style : SyntectStyle) (diff_style : Style) :
    (diff_style.is_syntax_highlighted = true → syntax_style ≠ null_syntect_style →
      (make_superimposed_style true_color null_syntect_style
            (syntax_style, diff_style)).ansi_term_style.foreground =
          some (to_ansi_color syntax_style.foreground true_color) ∧
        (make_superimposed_style true_color null_syntect_style
            (syntax_style, diff_style)).ansi_term_style.background =
          diff_style.ansi_term_style.background ∧
        (make_superimposed_style true_color null_syntect_style
            (syntax_style, diff_style)).ansi_term_style.is_bold =
          diff_style.ansi_term_style.is_bold ∧
        (make_superimposed_style true_color null_syntect_style
            (syntax_style, diff_style)).ansi_term_style.is_dimmed =
          diff_style.ansi_term_style.is_dimmed ∧
        (make_superimposed_style true_color null_syntect_style
            (syntax_style, diff_style)).ansi_term_style.is_italic =
          diff_style.ansi_term_style.is_italic ∧
        (make_superimposed_style true_color null_syntect_style
            (syntax_style, diff_style)).ansi_term_style.is_underline =
          diff_style.ansi_term_style.is_underline ∧
        (make_superimposed_style true_color null_syntect_style
            (syntax_style, diff_style)).ansi_term_style.is_blink =
          diff_style.ansi_term_style.is_blink ∧
        (make_superimposed_style true_color null_syntect_style
            (syntax_style, diff_style)).ansi_term_style.is_reverse =
          diff_style.ansi_term_style.is_reverse ∧
        (make_superimposed_style true_color null_syntect_style
            (syntax_style, diff_style)).ansi_term_style.is_hidden =
          diff_style.ansi_term_style.is_hidden ∧
        (make_superimposed_style true_color null_syntect_style
            (syntax_style, diff_style)).ansi_term_style.is_strikethrough =
          diff_style.ansi_term_style.is_strikethrough ∧
        (make_superimposed_style true_color null_syntect_style
            (syntax_style, diff_style)).is_emph = diff_style.is_emph ∧
        (make_superimposed_style true_color null_syntect_style
            (syntax_style, diff_style)).is_omitted = diff_style.is_omitted ∧
        (make_superimposed_style true_color null_syntect_style
            (syntax_style, diff_style)).is_raw = diff_style.is_raw ∧
        (make_superimposed_style true_color null_syntect_style
            (syntax_style, diff_style)).is_syntax_highlighted =
          diff_style.is_syntax_highlighted ∧
        (make_superimposed_style true_color null_syntect_style
            (syntax_style, diff_style)).decoration_style =
          diff_style.decoration_style) ∧
    (diff_style.is_syntax_highlighted = false ∨ syntax_style = null_syntect_style →
      make_superimposed_style true_color null_syntect_style
        (syntax_style, diff_style) = diff_style) ∧
    (∀ (l : List ((SyntectStyle × Style) × Char)) (st : Style) (txt : List Char),
      (st, txt) ∈ coalesce l true_color null_syntect_style →
        ∃ q c, (q, c) ∈ l ∧
          st = make_superimposed_style true_color null_syntect_style q) := by
  refine ⟨?_, ?_, ?_⟩
  · intro h1 h2
    simp [make_superimposed_style, h1, h2]
  · intro h
    rcases h with h | h
    · simp [make_superimposed_style, h]
    · simp [make_superimposed_style, h]
  · intro l st txt hmem
    cases l with
    | nil => simp [coalesce] at hmem
    | cons pc rest =>
      obtain ⟨pair, c⟩ := pc
      have hmem' : (st, txt) ∈
          coalesceLoop true_color null_syntect_style pair [c] rest := hmem
      rcases coalesceLoop_styles _ _ _ _ _ _ _ hmem' with h1 | ⟨q, c', hq, he⟩
      · exact ⟨pair, c, List.mem_cons_self _ _, h1⟩
      · exact ⟨q, c', List.mem_cons_of_mem _ hq, he⟩

/-- C3 witness: the resolution evaluated at a concrete syntax-highlighted
pair (highlighted branch) and at a concrete non-highlighted pair
(pass-through branch). -/
theorem c3_witness :
    (make_superimposed_style true sampleSyntectStyle
          (sampleSyntectStyle2, sampleHighlightedStyle)).ansi_term_style.foreground =
        some (to_ansi_color sampleSyntectStyle2.foreground true) ∧
      make_superimposed_style true sampleSyntectStyle
          (sampleSyntectStyle2, sampleStyle) = sampleStyle :=
  ⟨((c3_style_resolution true sampleSyntectStyle sampleSyntectStyle2
        sampleHighlightedStyle).1 rfl (by decide)).1,
    (c3_style_resolution true sampleSyntectStyle sampleSyntectStyle2
        sampleStyle).2.1 (Or.inl rfl)⟩

/-- C4 counterexample: applying the background-fill step to a line that
already ends with clear-to-end-of-line followed by SGR-reset does NOT yield
the same line — the trailing reset is removed and erase+reset appended, so
the clear-to-end-of-line sequence ends up duplicated. -/
theorem c4_counterexample :
    backgroundFillStep (['x'] ++ ANSI_CSI_ERASE_IN_LINE ++ ANSI_SGR_RESET) ≠
      ['x'] ++ ANSI_CSI_ERASE_IN_LINE ++ ANSI_SGR_RESET ∧
    backgroundFillStep (['x'] ++ ANSI_CSI_ERASE_IN_LINE ++ ANSI_SGR_RESET) =
      ['x'] ++ ANSI_CSI_ERASE_IN_LINE ++ ANSI_CSI_ERASE_IN_LINE ++
        ANSI_SGR_RESET := by
  constructor
  · decide
  · decide

/-- C4 (amended): the background-fill step applied to any line ending with
clear-to-end-of-line followed by SGR-reset removes that trailing reset and
appends erase+reset, so the result is the line with one additional
clear-to-end-of-line sequence inserted: the step is NOT idempotent (it
duplicates the clear-to-end-of-line sequence, though not the SGR-reset,
and grows the line by exactly the erase sequence's length). -/
theorem c4_fill_step_duplicates_erase (s : List Char) :
    backgroundFillStep (s ++ ANSI_CSI_ERASE_IN_LINE ++ ANSI_SGR_RESET) =
        (s ++ ANSI_CSI_ERASE_IN_LINE) ++ ANSI_CSI_ERASE_IN_LINE ++
          ANSI_SGR_RESET ∧
      (backgroundFillStep
          (s ++ ANSI_CSI_ERASE_IN_LINE ++ ANSI_SGR_RESET)).length =
        (s ++ ANSI_CSI_ERASE_IN_LINE ++ ANSI_SGR_RESET).length +
          ANSI_CSI_ERASE_IN_LINE.length := by
  have hsuffix : (strToLowercase ANSI_SGR_RESET).isSuffixOf
      (strToLowercase ((s ++ ANSI_CSI_ERASE_IN_LINE) ++ ANSI_SGR_RESET)) := by
    rw [List.isSuffixOf_iff_suffix]
    unfold strToLowercase
    rw [List.map_append]
    exact List.suffix_append _ _
  have hstep : backgroundFillStep ((s ++ ANSI_CSI_ERASE_IN_LINE) ++ ANSI_SGR_RESET) =
      (s ++ ANSI_CSI_ERASE_IN_LINE) ++ ANSI_CSI_ERASE_IN_LINE ++
        ANSI_SGR_RESET := by
    unfold backgroundFillStep
    rw [if_pos hsuffix]
    have hlen : ((s ++ ANSI_CSI_ERASE_IN_LINE) ++ ANSI_SGR_RESET).length -
        ANSI_SGR_RESET.length = (s ++ ANSI_CSI_ERASE_IN_LINE).length := by
      simp only [List.length_append]
      omega
    rw [hlen, List.take_left]
  have hassoc : s ++ ANSI_CSI_ERASE_IN_LINE ++ ANSI_SGR_RESET =
      (s ++ ANSI_CSI_ERASE_IN_LINE) ++ ANSI_SGR_RESET := rfl
  constructor
  · rw [hassoc, hstep]
  · rw [hassoc, hstep]
    simp [ANSI_CSI_ERASE_IN_LINE, ANSI_SGR_RESET]

theorem splitAtLastLn_eq_none_iff (t : List Char) :
    splitAtLastLn t = none ↔ countLn t = 0 := by
  induction t with
  | nil => simp [splitAtLastLn, countLn]
  | cons c rest ih =>
    constructor
    · intro h
      rw [splitAtLastLn] at h
      rcases hr : splitAtLastLn rest with _ | ⟨b, a⟩
      · rw [hr] at h
        by_cases hc : c = '%' ∧ rest.take 2 = ['l', 'n']
        · rw [if_pos hc] at h
          exact absurd h (by simp)
        · rw [countLn, if_neg hc, ih.mp hr]
      · rw [hr] at h
        exact absurd h (by simp)
    · intro h
      rw [countLn] at h
      by_cases hc : c = '%' ∧ rest.take 2 = ['l', 'n']
      · rw [if_pos hc] at h
        omega
      · rw [if_neg hc] at h
        simp only [Nat.zero_add] at h
        rw [splitAtLastLn, ih.mpr h, if_neg hc]

/-- C5 counterexample: the template `"%ln%ln"` contains the placeholder
TWICE, yet parsing succeeds (the greedy `before` group captures everything
up to the last occurrence), contradicting the claim that a duplicated
placeholder is rejected. -/
theorem c5_counterexample :
    countLn ['%', 'l', 'n', '%', 'l', 'n'] = 2 ∧
      get_line_number_components none ['%', 'l', 'n', '%', 'l', 'n'] =
        some (['%', 'l', 'n'], [' ', ' ', ' ', ' '], []) := by
  constructor
  · decide
  · decide

/-- C5 (amended): for templates without a line terminator, parsing the
gutter template fails exactly when the `%ln` placeholder is absent; any
template containing the placeholder at least once (including duplicated
placeholders) parses successfully, the `before` piece extending to the
LAST occurrence. -/
theorem c5_template_parse_characterization (number : Option Nat)
    (number_format : List Char) (hnl : '\n' ∉ number_format) :
    get_line_number_components number number_format = none ↔
      countLn number_format = 0 := by
  unfold get_line_number_components
  rcases h : splitAtLastLn number_format with _ | ⟨b, a⟩
  · simpa using (splitAtLastLn_eq_none_iff number_format).mp h
  · constructor
    · intro hcontra
      exact absurd hcontra (by simp)
    · intro hcount
      have := (splitAtLastLn_eq_none_iff number_format).mpr hcount
      rw [h] at this
      exact absurd this (by simp)

/-- C5 witness: a placeholder-free template is rejected and a
single-placeholder template is accepted, both through the
characterization. -/
theorem c5_witness :
    get_line_number_components none ['a', 'b'] = none ∧
      get_line_number_components (some 3) ['a', '%', 'l', 'n', 'b'] ≠ none :=
  ⟨(c5_template_parse_characterization none ['a', 'b'] (by decide)).mpr
      (by decide),
    fun h =>
      absurd
        ((c5_template_parse_characterization (some 3) ['a', '%', 'l', 'n', 'b']
            (by decide)).mp h)
        (by decide)⟩

/-- C6 counterexample: a five-digit line number formats to FIVE characters,
not four — `format!("{:^4}", x)` treats 4 as a minimum field width, never
truncating, so the claim that the number-text piece is exactly 4 characters
wide fails for numbers of more than four digits. -/
theorem c6_counterexample :
    (format_line_number (some 12345)).length = 5 := by
  decide

/-- C6 (amended): the number-text piece is four blanks when the number is
absent; when present its width is `max 4 d` where `d` is the number of
decimal digits, i.e. exactly 4 only while the number has at most four
digits, in which case the digits are centered in the 4 columns (any odd
padding going to the right); numbers with more digits render at their full
width. -/
theorem c6_number_text_width :
    format_line_number none = [' ', ' ', ' ', ' '] ∧
      (∀ x, (format_line_number (some x)).length =
        max 4 (natToDigits x).length) ∧
      (∀ x, (natToDigits x).length ≤ 4 →
        ∃ l r, format_line_number (some x) =
            List.replicate l ' ' ++ natToDigits x ++ List.replicate r ' ' ∧
          l + (natToDigits x).length + r = 4 ∧ l ≤ r ∧ r ≤ l + 1) := by
  have hfmt : ∀ x, format_line_number (some x) =
      if 4 ≤ (natToDigits x).length then natToDigits x
      else
        List.replicate ((4 - (natToDigits x).length) / 2) ' ' ++ natToDigits x ++
          List.replicate ((4 - (natToDigits x).length) -
            (4 - (natToDigits x).length) / 2) ' ' := fun _ => rfl
  refine ⟨rfl, ?_, ?_⟩
  · intro x
    rw [hfmt]
    by_cases h4 : 4 ≤ (natToDigits x).length
    · rw [if_pos h4]
      omega
    · rw [if_neg h4]
      simp only [List.length_append, List.length_replicate]
      omega
  · intro x h
    rw [hfmt]
    by_cases h4 : 4 ≤ (natToDigits x).length
    · rw [if_pos h4]
      refine ⟨0, 0, ?_, ?_, ?_, ?_⟩ <;> simp <;> omega
    · rw [if_neg h4]
      refine ⟨(4 - (natToDigits x).length) / 2,
        (4 - (natToDigits x).length) - (4 - (natToDigits x).length) / 2,
        rfl, ?_, ?_, ?_⟩ <;> omega

/-- C6 witness: the amended width law evaluated at a present one-digit
number; the digit sits centered with the extra blank on the right. -/
theorem c6_witness :
    (natToDigits 7).length ≤ 4 ∧
      ∃ l r, format_line_number (some 7) =
          List.replicate l ' ' ++ natToDigits 7 ++ List.replicate r ' ' ∧
        l + (natToDigits 7).length + r = 4 ∧ l ≤ r ∧ r ≤ l + 1 :=
  ⟨by decide, c6_number_text_width.2.2 7 (by decide)⟩

theorem pushLineNumbers_snd (b : Bool) :
    ∀ (lines : List (List Char)) (n : Nat),
      (pushLineNumbers b lines n).2 = n + lines.length := by
  intro lines
  induction lines with
  | nil => intro n; rfl
  | cons l rest ih =>
    intro n
    show (pushLineNumbers b rest (n + 1)).2 = n + (l :: rest).length
    rw [ih (n + 1)]
    simp only [List.length_cons]
    omega

/-- C7: one flush advances the minus counter by exactly the number of
buffered minus lines and the plus counter by exactly the number of buffered
plus lines, and empties both line buffers; with buffered minus lines and no
plus lines the resulting output buffer is produced by the minus-side
rendering alone (and with both sides empty it is untouched), so the plus
side renders nothing and its counter does not advance. -/
theorem c7_flush_effects
    (render_ansi : List (Style × List Char) → List Char)
    (highlight : List Char → List (SyntectStyle × List Char))
    (infer_edits : List (List Char) → List (List Char) → Style → Style → Style →
      Style → List (List (Style × List Char)) × List (List (Style × List Char)))
    (config : Config) (p p' : Painter)
    (h : paint_buffered_lines render_ansi highlight infer_edits config p =
      some p') :
    p'.minus_line_number = p.minus_line_number + p.minus_lines.length ∧
      p'.plus_line_number = p.plus_line_number + p.plus_lines.length ∧
      p'.minus_lines = [] ∧ p'.plus_lines = [] ∧
      (p.plus_lines = [] → p.minus_lines ≠ [] →
        paint_lines render_ansi config config.minus_line_marker
          config.minus_style config.minus_non_emph_style none
          (get_syntax_style_sections_for_lines highlight p.minus_lines
            State.HunkMinus config)
          (get_diff_style_sections infer_edits p.minus_lines p.plus_lines
            config).1
          (pushLineNumbers true p.minus_lines p.minus_line_number).1
          p.output_buffer = some p'.output_buffer) ∧
      (p.plus_lines = [] → p.minus_lines = [] →
        p'.output_buffer = p.output_buffer) := by
  unfold paint_buffered_lines at h
  by_cases hm : p.minus_lines.isEmpty = true <;>
    by_cases hp : p.plus_lines.isEmpty = true
  · simp only [hm, hp, if_true] at h
    obtain rfl := (Option.some.inj h).symm
    refine ⟨pushLineNumbers_snd true p.minus_lines p.minus_line_number,
      pushLineNumbers_snd false p.plus_lines p.plus_line_number, rfl, rfl,
      ?_, ?_⟩
    · intro _ hminus
      exact absurd (List.isEmpty_iff.mp hm) hminus
    · intro _ _
      rfl
  · simp only [hm, hp, if_true, if_false] at h
    split at h
    · exact absurd h (by simp)
    · obtain rfl := (Option.some.inj h).symm
      refine ⟨pushLineNumbers_snd true p.minus_lines p.minus_line_number,
        pushLineNumbers_snd false p.plus_lines p.plus_line_number, rfl, rfl,
        ?_, ?_⟩
      · intro hplus _
        exact absurd hplus (by simpa [List.isEmpty_iff] using hp)
      · intro hplus _
        exact absurd hplus (by simpa [List.isEmpty_iff] using hp)
  · simp only [hm, hp, if_true, if_false] at h
    split at h
    · exact absurd h (by simp)
    · rename_i buf1 hbuf1
      obtain rfl := (Option.some.inj h).symm
      refine ⟨pushLineNumbers_snd true p.minus_lines p.minus_line_number,
        pushLineNumbers_snd false p.plus_lines p.plus_line_number, rfl, rfl,
        ?_, ?_⟩
      · intro _ _
        exact hbuf1
      · intro _ hminus
        exact absurd hminus (by simpa [List.isEmpty_iff] using hm)
  · simp only [hm, hp, if_true, if_false] at h
    split at h
    · exact absurd h (by simp)
    · rename_i buf1 hbuf1
      split at h
      · exact absurd h (by simp)
      · rename_i buf2 hbuf2
        obtain rfl := (Option.some.inj h).symm
        refine ⟨pushLineNumbers_snd true p.minus_lines p.minus_line_number,
          pushLineNumbers_snd false p.plus_lines p.plus_line_number, rfl, rfl,
          ?_, ?_⟩
        · intro hplus _
          exact absurd hplus (by simpa [List.isEmpty_iff] using hp)
        · intro hplus _
          exact absurd hplus (by simpa [List.isEmpty_iff] using hp)

/-- Config for concrete witnesses: a null theme, no line numbers, plain
styles, `-`/`+` markers, no width extension. -/
def sampleConfig : Config :=
  { theme := none
    show_line_numbers := false
    number_minus_format := ['%', 'l', 'n']
    number_plus_format := ['%', 'l', 'n']
    number_minus_format_style := sampleStyle
    number_minus_style := sampleStyle
    number_plus_format_style := sampleStyle
    number_plus_style := sampleStyle
    true_color := false
    null_syntect_style := sampleSyntectStyle
    background_color_extends_to_terminal_width := false
    minus_line_marker := ['-']
    plus_line_marker := ['+']
    minus_style := sampleStyle
    minus_emph_style := sampleEmphStyle
    minus_non_emph_style := sampleStyle
    zero_style := sampleStyle
    plus_style := sampleStyle
    plus_emph_style := sampleEmphStyle
    plus_non_emph_style := sampleStyle }

/-- A concrete renderer standing in for `ansi_term::ANSIStrings::to_string`:
plain concatenation of the span texts. -/
def sampleRender : List (Style × List Char) → List Char := concatText

/-- A concrete highlighter collaborator: one whole-line span. -/
def sampleHighlight : List Char → List (SyntectStyle × List Char) :=
  fun line => [(sampleSyntectStyle, line)]

/-- A concrete edit-inference collaborator: one whole-line span per line in
the side's base style. -/
def sampleInferEdits : List (List Char) → List (List Char) → Style → Style →
    Style → Style →
    List (List (Style × List Char)) × List (List (Style × List Char)) :=
  fun minus_lines plus_lines minus_style _ plus_style _ =>
    (minus_lines.map (fun line => [(minus_style, line)]),
      plus_lines.map (fun line => [(plus_style, line)]))

/-- C7 witness: flushing a painter holding one minus line `"a\n"` and no
plus lines advances the minus counter from 0 to 1, leaves the plus counter
at 0, empties the buffers, and the output buffer comes from the minus-side
rendering alone. -/
theorem c7_witness :
    (Painter.mk [] [] ['-', '\n'] 1 0).minus_line_number =
        (Painter.mk [['a', '\n']] [] [] 0 0).minus_line_number +
          (Painter.mk [['a', '\n']] [] [] 0 0).minus_lines.length ∧
      (Painter.mk [] [] ['-', '\n'] 1 0).plus_line_number =
        (Painter.mk [['a', '\n']] [] [] 0 0).plus_line_number +
          (Painter.mk [['a', '\n']] [] [] 0 0).plus_lines.length ∧
      (Painter.mk [] [] ['-', '\n'] 1 0).minus_lines = [] ∧
      (Painter.mk [] [] ['-', '\n'] 1 0).plus_lines = [] ∧
      ((Painter.mk [['a', '\n']] [] [] 0 0).plus_lines = [] →
        (Painter.mk [['a', '\n']] [] [] 0 0).minus_lines ≠ [] →
        paint_lines sampleRender sampleConfig sampleConfig.minus_line_marker
          sampleConfig.minus_style sampleConfig.minus_non_emph_style none
          (get_syntax_style_sections_for_lines sampleHighlight
            (Painter.mk [['a', '\n']] [] [] 0 0).minus_lines
            State.HunkMinus sampleConfig)
          (get_diff_style_sections sampleInferEdits
            (Painter.mk [['a', '\n']] [] [] 0 0).minus_lines
            (Painter.mk [['a', '\n']] [] [] 0 0).plus_lines sampleConfig).1
          (pushLineNumbers true (Painter.mk [['a', '\n']] [] [] 0 0).minus_lines
            (Painter.mk [['a', '\n']] [] [] 0 0).minus_line_number).1
          (Painter.mk [['a', '\n']] [] [] 0 0).output_buffer =
          some (Painter.mk [] [] ['-', '\n'] 1 0).output_buffer) ∧
      ((Painter.mk [['a', '\n']] [] [] 0 0).plus_lines = [] →
        (Painter.mk [['a', '\n']] [] [] 0 0).minus_lines = [] →
        (Painter.mk [] [] ['-', '\n'] 1 0).output_buffer =
          (Painter.mk [['a', '\n']] [] [] 0 0).output_buffer) :=
  c7_flush_effects sampleRender sampleHighlight sampleInferEdits sampleConfig
    (Painter.mk [['a', '\n']] [] [] 0 0) (Painter.mk [] [] ['-', '\n'] 1 0)
    (by decide)

/-- The spec's description of the per-line rewrite performed by
`set_non_emph_styles` on a multi-style line: same length, every span keeps
its text, emph-flagged spans are unchanged, and every non-emph-flagged span
has its style replaced by the non-emph style. -/
def rewrittenLine (non_emph_style : Style) (l l' : List (Style × List Char)) :
    Prop :=
  l'.length = l.length ∧
    ∀ j s, l.get? j = some s → ∃ s', l'.get? j = some s' ∧ s'.2 = s.2 ∧
      (s.1.is_emph = true → s' = s) ∧
      (s.1.is_emph = false → s' = (non_emph_style, s.2))

theorem set_non_emph_styles_spec
    (sections : List (List (Style × List Char))) (ns : Style) :
    (set_non_emph_styles sections ns).length = sections.length ∧
      ∀ i l, sections.get? i = some l →
        ((style_sections_contain_more_than_one_style l = false →
            (set_non_emph_styles sections ns).get? i = some l) ∧
          (style_sections_contain_more_than_one_style l = true →
            ∃ l', (set_non_emph_styles sections ns).get? i = some l' ∧
              rewrittenLine ns l l')) := by
  constructor
  · exact List.length_map _ _
  · intro i l hl
    have hget : (set_non_emph_styles sections ns).get? i =
        some (if style_sections_contain_more_than_one_style l then
          l.map (fun sec => if ¬ sec.1.is_emph then (ns, sec.2) else sec)
        else l) := by
      unfold set_non_emph_styles
      rw [List.get?_map, hl]
      rfl
    constructor
    · intro hsingle
      rw [hget, if_neg (by simp [hsingle])]
    · intro hmulti
      refine ⟨l.map (fun sec => if ¬ sec.1.is_emph then (ns, sec.2) else sec),
        ?_, ?_, ?_⟩
      · rw [hget, if_pos (by simp [hmulti])]
      · exact List.length_map _ _
      · intro j s hs
        refine ⟨if ¬ s.1.is_emph then (ns, s.2) else s, ?_, ?_, ?_, ?_⟩
        · rw [List.get?_map, hs]
          rfl
        · by_cases he : s.1.is_emph <;> simp [he]
        · intro he
          simp [he]
        · intro he
          simp [he]

/-- C8: per side, when the non-emphasis style differs from the emphasis
style, the diff-section post-processing rewrites exactly the lines whose
diff partition contains more than one distinct style — replacing the style
of every non-emph-flagged span with the non-emphasis style while keeping
all span texts and all emph-flagged spans — and leaves single-style lines
unchanged; when the two styles are equal the inferred sections pass
through entirely unchanged. -/
theorem c8_non_emph_rewrite
    (infer_edits : List (List Char) → List (List Char) → Style → Style → Style →
      Style → List (List (Style × List Char)) × List (List (Style × List Char)))
    (minus_lines plus_lines : List (List Char)) (config : Config) :
    (config.minus_non_emph_style = config.minus_emph_style →
      (get_diff_style_sections infer_edits minus_lines plus_lines config).1 =
        (infer_edits minus_lines plus_lines config.minus_style
          config.minus_emph_style config.plus_style config.plus_emph_style).1) ∧
    (config.plus_non_emph_style = config.plus_emph_style →
      (get_diff_style_sections infer_edits minus_lines plus_lines config).2 =
        (infer_edits minus_lines plus_lines config.minus_style
          config.minus_emph_style config.plus_style config.plus_emph_style).2) ∧
    (config.minus_non_emph_style ≠ config.minus_emph_style →
      (get_diff_style_sections infer_edits minus_lines plus_lines config).1 =
        set_non_emph_styles
          (infer_edits minus_lines plus_lines config.minus_style
            config.minus_emph_style config.plus_style config.plus_emph_style).1
          config.minus_non_emph_style) ∧
    (config.plus_non_emph_style ≠ config.plus_emph_style →
      (get_diff_style_sections infer_edits minus_lines plus_lines config).2 =
        set_non_emph_styles
          (infer_edits minus_lines plus_lines config.minus_style
            config.minus_emph_style config.plus_style config.plus_emph_style).2
          config.plus_non_emph_style) ∧
    (∀ (sections : List (List (Style × List Char))) (ns : Style),
      (set_non_emph_styles sections ns).length = sections.length ∧
        ∀ i l, sections.get? i = some l →
          ((style_sections_contain_more_than_one_style l = false →
              (set_non_emph_styles sections ns).get? i = some l) ∧
            (style_sections_contain_more_than_one_style l = true →
              ∃ l', (set_non_emph_styles sections ns).get? i = some l' ∧
                rewrittenLine ns l l'))) := by
  refine ⟨?_, ?_, ?_, ?_, set_non_emph_styles_spec⟩
  · intro heq
    unfold get_diff_style_sections
    simp [heq]
  · intro heq
    unfold get_diff_style_sections
    simp [heq]
  · intro hne
    unfold get_diff_style_sections
    simp [hne]
  · intro hne
    unfold get_diff_style_sections
    simp [hne]

/-- C8 witness: with the sample configuration (whose minus non-emphasis
style differs from its emphasis style) the minus diff sections are exactly
the rewritten inferred sections. -/
theorem c8_witness :
    (get_diff_style_sections sampleInferEdits [['a', '\n']] [] sampleConfig).1 =
      set_non_emph_styles
        (sampleInferEdits [['a', '\n']] [] sampleConfig.minus_style
          sampleConfig.minus_emph_style sampleConfig.plus_style
          sampleConfig.plus_emph_style).1
        sampleConfig.minus_non_emph_style :=
  (c8_non_emph_rewrite sampleInferEdits [['a', '\n']] [] sampleConfig).2.2.1
    (by decide)

/-- C9 counterexample: an empty changed line is buffered as `"\n"`; its
superimposed span list is the single span with empty text (the newline
having been stripped by coalescing). With the non-empty prefix `"-"` the
renderer emits the prefix in that span's style but removes NO character
from the span's text — "removes exactly one character from the front of
the first span's text" is unsatisfiable there (the text has no character),
contradicting the claim's unconditional removal. -/
theorem c9_counterexample :
    superimpose_style_sections [(sampleSyntectStyle, ['\n'])]
        [(sampleStyle, ['\n'])] true sampleSyntectStyle =
      some [(sampleStyle, [])] ∧
    contentAnsiStrings ['-'] [(sampleStyle, [])] =
      [(sampleStyle, ['-']), (sampleStyle, [])] ∧
    ¬ ∃ (c : Char) (t : List Char), ([] : List Char) = c :: t := by
  refine ⟨by decide, by decide, ?_⟩
  rintro ⟨c, t, hct⟩
  exact absurd hct (by simp)

/-- C9 (amended): with a non-empty configured prefix and a non-empty
superimposed span list, the renderer emits the prefix painted in the first
span's style and removes exactly one character from the front of the first
span's text WHEN that text is non-empty (removing nothing when the first
span's text is empty); later spans are untouched, and with an empty prefix
no span is altered at all. -/
theorem c9_prefix_handling :
    (∀ (pfx : List Char) (st : Style) (text : List Char)
        (rest : List (Style × List Char)), pfx ≠ [] → text ≠ [] →
      contentAnsiStrings pfx ((st, text) :: rest) =
          (st, pfx) :: (st, text.drop 1) :: rest ∧
        (text.drop 1).length + 1 = text.length) ∧
    (∀ (pfx : List Char) (st : Style) (rest : List (Style × List Char)),
        pfx ≠ [] →
      contentAnsiStrings pfx ((st, []) :: rest) =
        (st, pfx) :: (st, []) :: rest) ∧
    (∀ sections, contentAnsiStrings [] sections = sections) := by
  refine ⟨?_, ?_, ?_⟩
  · intro pfx st text rest hpfx htext
    constructor
    · have hpos : 0 < text.length := List.length_pos.mpr htext
      simp [contentAnsiStrings, hpfx, hpos]
    · have hpos : 0 < text.length := List.length_pos.mpr htext
      simp only [List.length_drop]
      omega
  · intro pfx st rest hpfx
    simp [contentAnsiStrings, hpfx]
  · intro sections
    cases sections with
    | nil => rfl
    | cons hd tl =>
      obtain ⟨st, text⟩ := hd
      simp [contentAnsiStrings]

/-- C9 witness: prefix `"-"` over a first span with text `"a"`: the prefix
is emitted in the span's style and exactly one character is removed. -/
theorem c9_witness :
    contentAnsiStrings ['-'] [(sampleStyle, ['a'])] =
        (sampleStyle, ['-']) :: (sampleStyle, (['a'] : List Char).drop 1) ::
          [] ∧
      ((['a'] : List Char).drop 1).length + 1 = (['a'] : List Char).length :=
  c9_prefix_handling.1 ['-'] sampleStyle ['a'] [] (by decide) (by decide)

/-- C10: `emit` is atomic with respect to the output buffer: a successful
write receives exactly the whole buffer, clears it and touches nothing else
in the painter; a failed write propagates the error, writes nothing and
leaves the painter (in particular its output buffer) unchanged; after a
successful emit a second emit appends nothing further to the sink. -/
theorem c10_emit_atomicity (sink : List Char) (p : Painter) :
    ((emit true sink p).1 = Except.ok () ∧
      (emit true sink p).2.1 = sink ++ p.output_buffer ∧
      (emit true sink p).2.2.output_buffer = [] ∧
      (emit true sink p).2.2.minus_lines = p.minus_lines ∧
      (emit true sink p).2.2.plus_lines = p.plus_lines ∧
      (emit true sink p).2.2.minus_line_number = p.minus_line_number ∧
      (emit true sink p).2.2.plus_line_number = p.plus_line_number) ∧
    ((emit false sink p).1 = Except.error () ∧
      (emit false sink p).2.1 = sink ∧
      (emit false sink p).2.2 = p) ∧
    (emit true (emit true sink p).2.1 (emit true sink p).2.2).2.1 =
      sink ++ p.output_buffer := by
  refine ⟨⟨rfl, rfl, rfl, rfl, rfl, rfl, rfl⟩, ⟨rfl, rfl, rfl⟩, ?_⟩
  show (sink ++ p.output_buffer) ++ ([] : List Char) = sink ++ p.output_buffer
  simp
